import Mathlib

/-!
Verification development for the AshKmodify editor (main.go): a retained-mode
UI element tree (layout, render, event dispatch, scrolling) with a plain-text
editing model built from tree mutations.  Every definition below is a shallow
embedding of a function or code region of main.go; theorems at the end of the
file settle the specification claims against these definitions.

Conventions: Go `int32`/`int` values are modelled as `Int` (no arithmetic in
the modelled regions can overflow 32 bits on the inputs considered); Go slices
are Lean lists; pointer-identified tree children are either modelled
positionally (lists indexed by position) or by numeric ids, as noted at each
definition.
-/

/-! ## Text editing model (main.go: writeChar lines 706-766, arrow-key handler
lines 912-959, Element.InsertChild/AppendChild/Remove lines 549-615)

A row of the text editing area is a list of cells; a cell is either a
single-character element (`Cell.char`) or the cursor element (`Cell.cursor`).
The document (`textEditingArea.Children`) is the list of rows.  The cursor
position is tracked redundantly as (x, y) exactly as in the Go `Cursor`
struct. -/

inductive Cell where
  | char : Nat → Cell
  | cursor : Cell
deriving DecidableEq, Repr

abbrev Row := List Cell

structure EditorState where
  rows : List Row
  x : Nat
  y : Nat
deriving DecidableEq, Repr

/-- Element.InsertChild (main.go lines 557-568) acting on a child list: if the
index is at least the current length the child is appended (the
`e.AppendChild(child)` early return), otherwise it is spliced in at index `i`
(`append(e.Children[:i], append([]*Element{child}, e.Children[i:]...)...)`). -/
def insertChildAt {α : Type} (l : List α) (c : α) (i : Nat) : List α :=
  if l.length ≤ i then l ++ [c] else l.take i ++ c :: l.drop i

/-- Removal of the cursor element from a row, as performed by
`cursor.CursorElement.Remove()` (main.go lines 598-615): Remove excises the
unique child that is pointer-identical to the cursor from its parent row;
positionally this erases the first cursor cell of the row that holds it. -/
def removeCursorRow (r : Row) : Row :=
  r.eraseP (fun c => c == Cell.cursor)

/-- Cursor removal lifted to the whole document: rows not containing the
cursor are unchanged (eraseP finds no match), the row holding it loses it. -/
def removeCursor (rows : List Row) : List Row :=
  rows.map removeCursorRow

/-- Loop of the backspace-merge branch (main.go lines 717-724): while the last
row has children, remove its first child, append it to the previous row, and
count the moves in `removed`.  Returns the grown previous row and the count. -/
def mergeRows : Row → Row → Nat → Row × Nat
  | [], prev, removed => (prev, removed)
  | c :: rest, prev, removed => mergeRows rest (prev ++ [c]) (removed + 1)

/-- Loop of the delete-merge branch (main.go lines 740-744): while the next
row has children, remove its first child and append it to the current row. -/
def transferAll : Row → Row → Row
  | [], dst => dst
  | c :: rest, dst => transferAll rest (dst ++ [c])

/-- Loop body of the newline branch (main.go lines 752-756): while the current
row has more than `x` children, remove the child at index `x` and append it to
the new line.  The fuel argument bounds the iteration count; every iteration
shortens the source row by one, so fuel `src.length` always suffices. -/
def moveTailFuel : Nat → Nat → Row → Row → Row × Row
  | 0, _, src, line => (src, line)
  | fuel + 1, x, src, line =>
    if h : x < src.length then
      moveTailFuel fuel x (src.eraseIdx x) (line ++ [src.get ⟨x, h⟩])
    else (src, line)

/-- Newline-branch loop with enough fuel to run to completion. -/
def moveTail (x : Nat) (src line : Row) : Row × Row :=
  moveTailFuel src.length x src line

/-- writeChar (main.go lines 706-766).  The input byte is a natural number;
8 is backspace, 127 is delete, 10 is newline, everything else inserts a
character element at the cursor column.  Row/column accesses use `getD` with
an empty-row default where the Go code indexes slices directly. -/
def writeChar (s : EditorState) (c : Nat) : EditorState :=
  if c = 8 then
    if s.x = 0 then
      if s.y ≠ 0 then
        let rows1 := removeCursor s.rows
        let lastRow := rows1.getD s.y []
        let y1 := s.y - 1
        let mr := mergeRows lastRow (rows1.getD y1 []) 0
        let rows2 := (rows1.set y1 mr.1).eraseIdx s.y
        let x1 := (rows2.getD y1 []).length - mr.2
        let rows3 := rows2.set y1 (insertChildAt (rows2.getD y1 []) Cell.cursor x1)
        ⟨rows3, x1, y1⟩
      else s
    else
      ⟨s.rows.set s.y ((s.rows.getD s.y []).eraseIdx (s.x - 1)), s.x - 1, s.y⟩
  else if c = 127 then
    if s.x + 1 < (s.rows.getD s.y []).length then
      ⟨s.rows.set s.y ((s.rows.getD s.y []).eraseIdx (s.x + 1)), s.x, s.y⟩
    else if s.y + 1 < s.rows.length then
      let nextRow := s.rows.getD (s.y + 1) []
      let rows1 := s.rows.set s.y (transferAll nextRow (s.rows.getD s.y []))
      ⟨rows1.eraseIdx (s.y + 1), s.x, s.y⟩
    else s
  else if c = 10 then
    let rows1 := insertChildAt s.rows ([] : Row) (s.y + 1)
    let src := rows1.getD s.y []
    let line0 := rows1.getD (s.y + 1) []
    let mv := moveTail s.x src line0
    let rows2 := (rows1.set s.y mv.1).set (s.y + 1) mv.2
    let rows3 := removeCursor rows2
    let rows4 := rows3.set (s.y + 1) (insertChildAt (rows3.getD (s.y + 1) []) Cell.cursor 0)
    ⟨rows4, 0, s.y + 1⟩
  else
    ⟨s.rows.set s.y (insertChildAt (s.rows.getD s.y []) (Cell.char c) s.x), s.x + 1, s.y⟩

inductive Arrow where
  | right | left | up | down
deriving DecidableEq, Repr

/-- Arrow-key branch of the textEditingArea key handler (main.go lines
925-955): the cursor element is removed first, then (x, y) is updated against
the cursor-free rows, then the cursor element is reinserted at the new
position. -/
def arrowKey (s : EditorState) (k : Arrow) : EditorState :=
  let rows1 := removeCursor s.rows
  let p :=
    match k with
    | Arrow.right =>
      if s.x < (rows1.getD s.y []).length then (s.x + 1, s.y)
      else if s.y + 1 < rows1.length then (0, s.y + 1)
      else (s.x, s.y)
    | Arrow.left =>
      if s.x > 0 then (s.x - 1, s.y)
      else if s.y > 0 then ((rows1.getD (s.y - 1) []).length, s.y - 1)
      else (s.x, s.y)
    | Arrow.up =>
      if s.y > 0 then (min s.x (rows1.getD (s.y - 1) []).length, s.y - 1)
      else (s.x, s.y)
    | Arrow.down =>
      if s.y + 1 < rows1.length then (min s.x (rows1.getD (s.y + 1) []).length, s.y + 1)
      else (s.x, s.y)
  let rows2 := rows1.set p.2 (insertChildAt (rows1.getD p.2 []) Cell.cursor p.1)
  ⟨rows2, p.1, p.2⟩

/-- Number of cursor cells in the whole document. -/
def cursorCount : List Row → Nat
  | [] => 0
  | r :: rs => r.count Cell.cursor + cursorCount rs

/-- Well-formed editing state: the cursor row index is in range, the cell at
(row y, child index x) is the cursor element, and the cursor element occurs
exactly once in the whole tree.  (The character sequence of a row is by
construction its list of cells with the cursor cell removed.) -/
def EditorWF (s : EditorState) : Prop :=
  s.y < s.rows.length ∧
  (s.rows.getD s.y []).get? s.x = some Cell.cursor ∧
  cursorCount s.rows = 1

instance (s : EditorState) : Decidable (EditorWF s) := by
  unfold EditorWF; infer_instance

/-- Character content of a row: its cells with the cursor excluded, in order
(this is what the save handler at main.go lines 986-1004 writes out). -/
def rowChars (r : Row) : List Nat :=
  r.filterMap (fun c => match c with | Cell.char a => some a | Cell.cursor => none)

/-- Initial editing state built by main (lines 904-910): one empty row whose
only child is the cursor element, cursor at row 0 column 0. -/
def initialEditor : EditorState := ⟨[[Cell.cursor]], 0, 0⟩

/-! ## Render, Content branch: final texture size (main.go lines 241-292)

Inputs are the queried content texture size, the resolved (expanded)
width/height and the configured minimums; the output is the final
(textureWidth, textureHeight) recorded into LastRenderedWidth and
LastRenderedHeight.  Note the second clamp (source lines 258-260) assigns
`e.MinHeight` to `textureWidth`. -/

def contentBranchSize (contentWidth contentHeight realWidth realHeight
    minWidth minHeight : Int) : Int × Int :=
  let textureWidth := contentWidth
  let textureHeight := contentHeight
  let textureWidth := if realWidth ≥ 0 then realWidth else textureWidth
  let textureHeight := if realHeight ≥ 0 then realHeight else textureHeight
  let textureWidth := if textureWidth < minWidth then minWidth else textureWidth
  let textureWidth := if textureHeight < minHeight then minHeight else textureWidth
  (textureWidth, textureHeight)

/-! ## Element.InsertChild / Element.AppendChild on element records
(main.go lines 549-568)

Elements are identified by numeric ids standing for pointers; the child list
holds child ids.  AppendChild clears Content, sets the child's parent
back-reference and appends; InsertChild falls back to AppendChild when the
index is not below the current child count. -/

structure ElemN where
  id : Nat
  ParentId : Option Nat
  ContentId : Option Nat
  Children : List Nat
deriving DecidableEq, Repr

/-- Element.AppendChild (main.go lines 549-555): returns the updated parent
and the updated child. -/
def elemAppendChild (e child : ElemN) : ElemN × ElemN :=
  ({ e with ContentId := none, Children := e.Children ++ [child.id] },
   { child with ParentId := some e.id })

/-- Element.InsertChild (main.go lines 557-568): returns the updated parent
and the updated child. -/
def elemInsertChild (e child : ElemN) (i : Nat) : ElemN × ElemN :=
  if e.Children.length ≤ i then elemAppendChild e child
  else
    let e1 := { e with ContentId := none }
    ({ e1 with Children := e.Children.take i ++ child.id :: e.Children.drop i },
     { child with ParentId := some e.id })

/-! ## Render, Children branch: wrap-flow placement and final size
(main.go lines 294-421)

The recursive child renders are abstracted by their results: each child enters
the layout pass with the width/height of its queried rendered texture together
with its margin/flow configuration.  The loop below is the placement loop of
lines 302-349; the epilogue reproduces lines 351-419.  `maxWidth` is bound to
`realWidth` at loop entry (line 294) and is never reassigned inside the
loop. -/

structure LayoutChild where
  width : Int
  height : Int
  MarginX : Int
  MarginXPercent : Bool
  MarginY : Int
  MarginYPercent : Bool
  InlineFlag : Bool
  BreakingFlag : Bool
deriving DecidableEq, Repr

structure FlowState where
  currentX : Int
  currentY : Int
  currentLineHeight : Int
  childWidth : Int
  placements : List (Int × Int)
deriving DecidableEq, Repr

/-- Resolved margins of a child against the container's resolved size
(main.go lines 315-323). -/
def resolvedMarginX (ch : LayoutChild) (realWidth : Int) : Int :=
  if ch.MarginXPercent then ch.MarginX * realWidth / 100 else ch.MarginX

def resolvedMarginY (ch : LayoutChild) (realHeight : Int) : Int :=
  if ch.MarginYPercent then ch.MarginY * realHeight / 100 else ch.MarginY

/-- Wrap decision of main.go line 329:
`!child.Inline && (newX > maxWidth && !e.ScrollX) || (i > 0 && e.Children[i-1].Breaking)`
with Go operator precedence (`&&` over `||`); `prevBreaking` is false for the
first child (`i > 0` guard). -/
def wrapDecision (ch : LayoutChild) (newX maxWidth : Int) (scrollX prevBreaking : Bool) : Bool :=
  (!ch.InlineFlag && (decide (newX > maxWidth) && !scrollX)) || prevBreaking

/-- Body of the placement loop (main.go lines 302-349) for one child. -/
def flowStep (maxWidth realWidth realHeight : Int) (scrollX : Bool)
    (spx spy : Int) (prevBreaking : Bool) (st : FlowState) (ch : LayoutChild) : FlowState :=
  let marginX := resolvedMarginX ch realWidth
  let marginY := resolvedMarginY ch realHeight
  let totalHeight := ch.height + marginY
  let newX := st.currentX + ch.width + marginX
  let wraps := wrapDecision ch newX maxWidth scrollX prevBreaking
  let childWidth := if wraps then (if st.currentX > st.childWidth then st.currentX else st.childWidth) else st.childWidth
  let currentX := if wraps then 0 else st.currentX
  let newX := if wraps then currentX + ch.width else newX
  let currentY := if wraps then st.currentY + st.currentLineHeight else st.currentY
  let currentLineHeight := if wraps then 0 else st.currentLineHeight
  let currentLineHeight := if totalHeight > currentLineHeight then totalHeight else currentLineHeight
  let placement := (currentX + marginX - spx, currentY + marginY - spy)
  { currentX := newX
    currentY := currentY
    currentLineHeight := currentLineHeight
    childWidth := childWidth
    placements := st.placements ++ [placement] }

/-- Placement loop over all children, threading the previous child's Breaking
flag (false before the first child). -/
def flowChildren (maxWidth realWidth realHeight : Int) (scrollX : Bool)
    (spx spy : Int) : List LayoutChild → Bool → FlowState → FlowState
  | [], _, st => st
  | ch :: rest, prevBreaking, st =>
    flowChildren maxWidth realWidth realHeight scrollX spx spy rest ch.BreakingFlag
      (flowStep maxWidth realWidth realHeight scrollX spx spy prevBreaking st ch)

structure ContainerCfg where
  Width : Int
  MinWidth : Int
  Height : Int
  MinHeight : Int
  ScrollX : Bool
  ScrollY : Bool
  ScrollPositionX : Int
  ScrollPositionY : Int
deriving DecidableEq, Repr

/-- Result of the children branch: the per-child cached placements
(LastRenderedX/Y), the cached content extents (LastRenderedChildWidth and
LastRenderedChildHeight, lines 351-359), and the final texture size recorded
into LastRenderedWidth/LastRenderedHeight (lines 361-419). -/
structure ChildrenRender where
  placements : List (Int × Int)
  childExtentW : Int
  childExtentH : Int
  finalW : Int
  finalH : Int
deriving DecidableEq, Repr

/-- Children branch of Element.Render (main.go lines 294-421), given the
resolved size (realWidth, realHeight) from ExpandedSize and the rendered sizes
of the children. -/
def renderChildren (cfg : ContainerCfg) (realWidth realHeight : Int)
    (children : List LayoutChild) : ChildrenRender :=
  let maxWidth := realWidth
  let st := flowChildren maxWidth realWidth realHeight cfg.ScrollX
    cfg.ScrollPositionX cfg.ScrollPositionY children false
    { currentX := 0, currentY := 0, currentLineHeight := 0, childWidth := 0, placements := [] }
  let childWidth := if st.currentX > st.childWidth then st.currentX else st.childWidth
  let currentY := st.currentY + st.currentLineHeight
  let childHeight := currentY
  let currentY := if cfg.Height ≥ 0 then realHeight else currentY
  let maxWidth := if cfg.Width ≥ 0 then realWidth else maxWidth
  let maxWidth := if maxWidth < cfg.MinWidth then cfg.MinWidth else maxWidth
  let currentY := if currentY < cfg.MinHeight then cfg.MinHeight else currentY
  { placements := st.placements
    childExtentW := childWidth
    childExtentH := childHeight
    finalW := maxWidth
    finalH := currentY }

/-- Rendered size of the children branch as claim C4 words it: on each axis,
the configured size when non-negative, otherwise the computed content extent,
clamped upward to the configured minimum.  This definition follows the words
of the specification, to be compared with `renderChildren`. -/
def specChildrenSize (cfg : ContainerCfg) (realWidth realHeight
    childExtentW childExtentH : Int) : Int × Int :=
  (max (if cfg.Width ≥ 0 then realWidth else childExtentW) cfg.MinWidth,
   max (if cfg.Height ≥ 0 then realHeight else childExtentH) cfg.MinHeight)

/-! ## Element.Scroll, self-handling part (main.go lines 491-547)

The recursion into children (lines 496-500) touches only the children's own
scroll state; the element's own offsets are updated solely by the code below:
the Content early return, the pointer-in-rect gate, the axis redirection of
lines 508-510, and the clamping loop executed for i = 0, 1, 2. -/

structure ScrollGeom where
  LastRenderedX : Int
  LastRenderedY : Int
  LastRenderedWidth : Int
  LastRenderedHeight : Int
  LastRenderedChildWidth : Int
  LastRenderedChildHeight : Int
  ScrollXFlag : Bool
  ScrollYFlag : Bool
  hasContent : Bool
deriving DecidableEq, Repr

/-- inBox (main.go lines 437-439). -/
def inBox (x y boxX boxY boxW boxH : Int) : Bool :=
  decide (x ≥ boxX) && decide (x < boxX + boxW) && decide (y ≥ boxY) && decide (y < boxY + boxH)

/-- One iteration of the clamping loop (main.go lines 512-544) at loop index
`i`; the state is (ScrollPositionX, ScrollPositionY, scrolled). -/
def scrollIter (g : ScrollGeom) (scrollX scrollY : Int) (i : Nat)
    (st : Int × Int × Bool) : Int × Int × Bool :=
  let spx := st.1
  let spy := st.2.1
  let scrolled := st.2.2
  let px :=
    if g.ScrollXFlag then
      if spx + g.LastRenderedWidth ≥ g.LastRenderedChildWidth then
        (if g.LastRenderedChildWidth ≥ g.LastRenderedWidth then
          (g.LastRenderedChildWidth - g.LastRenderedWidth, scrolled)
         else (0, scrolled))
      else if spx ≤ 0 then (0, scrolled)
      else if i = 0 then (spx - scrollX * 60, true)
      else (spx, scrolled)
    else (spx, scrolled)
  let py :=
    if g.ScrollYFlag then
      if spy + g.LastRenderedHeight > g.LastRenderedChildHeight then
        (if g.LastRenderedChildHeight ≥ g.LastRenderedHeight then
          (g.LastRenderedChildHeight - g.LastRenderedHeight, px.2)
         else (0, px.2))
      else if spy < 0 then (0, px.2)
      else if i = 0 then (spy - scrollY * 60, true)
      else (spy, px.2)
    else (spy, px.2)
  (px.1, py.1, py.2)

/-- Element.Scroll acting on the element's own offsets (main.go lines
491-547): mouse position and wheel deltas in, new (ScrollPositionX,
ScrollPositionY, scrolled) out. -/
def scrollSelf (g : ScrollGeom) (mouseX mouseY scrollX scrollY spx spy : Int) :
    Int × Int × Bool :=
  if g.hasContent then (spx, spy, false)
  else if !(inBox mouseX mouseY g.LastRenderedX g.LastRenderedY
      g.LastRenderedWidth g.LastRenderedHeight) then (spx, spy, false)
  else
    let scrollX := if !g.ScrollYFlag || g.LastRenderedHeight ≥ g.LastRenderedChildHeight
      then scrollY else scrollX
    let st := scrollIter g scrollX scrollY 0 (spx, spy, false)
    let st := scrollIter g scrollX scrollY 1 st
    scrollIter g scrollX scrollY 2 st

structure ScrollCall where
  mouseX : Int
  mouseY : Int
  scrollX : Int
  scrollY : Int
deriving DecidableEq, Repr

/-- Sequence of Scroll calls against fixed cached geometry, as issued by the
main event loop on wheel events (main.go lines 1081-1084). -/
def scrollRun (g : ScrollGeom) (spx spy : Int) : List ScrollCall → Int × Int
  | [] => (spx, spy)
  | c :: rest =>
    let st := scrollSelf g c.mouseX c.mouseY c.scrollX c.scrollY spx spy
    scrollRun g st.1 st.2.1 rest

/-! ## Mouse dispatch (main.go: Element.MouseUpdate lines 441-489, DeselectAll
lines 590-596, per-frame selection refresh lines 1069-1080)

The element tree is a mutual inductive (node fields + child list) so that the
dispatcher's sequential child walk is a plain structural recursion.  Elements
are addressed by their path from the root (list of child indices); the Go
`*selected` pointer becomes an optional path.  Emitted events are collected in
a log of (path, event) pairs; the registered handlers of the editor never
toggle Selected, so the log is the observable effect of Emit. -/

inductive MEvent where
  | hover : Bool → MEvent
  | buttonDown : Nat → MEvent
  | buttonUp : Nat → MEvent
  | click : Nat → MEvent
deriving DecidableEq, Repr

structure MFields where
  Selectable : Bool
  Selected : Bool
  MouseHovering : Bool
  Clicks0 : Bool
  Clicks1 : Bool
  Clicks2 : Bool
  LastRenderedX : Int
  LastRenderedY : Int
  LastRenderedWidth : Int
  LastRenderedHeight : Int
deriving DecidableEq, Repr

mutual
inductive MTree where
  | node : MFields → MList → MTree
deriving DecidableEq
inductive MList where
  | nil : MList
  | cons : MTree → MList → MList
deriving DecidableEq
end

def MTree.fields : MTree → MFields
  | MTree.node f _ => f

/-- Body of the per-button loop of MouseUpdate (main.go lines 454-482) for one
button `b`: given the previous/current pressed state, whether the pointer is
over the element, and the stored MouseButtonClicks latch, produce the new
latch, the emitted events in order, and whether the button-down edge fired
(the edge on which `*selected = e` runs when the element is selectable). -/
def mouseButtonStep (b : Nat) (oldState newState overMe clicks : Bool) :
    Bool × List MEvent × Bool :=
  let downEdge := !oldState && newState && overMe
  let clicks := if downEdge then true else clicks
  let evsDown := if downEdge then [MEvent.buttonDown b] else []
  let clicks := if !overMe then false else clicks
  let upEdge := oldState && !newState && overMe
  let evsUp := if upEdge then
      MEvent.buttonUp b :: (if clicks then [MEvent.click b] else [])
    else []
  let clicks := if !newState then false else clicks
  (clicks, evsDown ++ evsUp, downEdge)

abbrev B3 := Bool × Bool × Bool

/-- Element-local part of MouseUpdate (main.go lines 442-482): hover edge
detection followed by the three button iterations.  Returns the updated
fields, the events emitted on this element in order, and whether some
button-down edge fired while over the element (in which case the Go code sets
`*selected = e` if the element is selectable). -/
def mouseUpdateFields (f : MFields) (oldB newB : B3) (overMe : Bool) :
    MFields × List MEvent × Bool :=
  let hoverIn := overMe && !f.MouseHovering
  let hoverOut := !overMe && f.MouseHovering
  let hovering := if hoverIn then true else if hoverOut then false else f.MouseHovering
  let hoverEvs := (if hoverIn then [MEvent.hover true] else [])
    ++ (if hoverOut then [MEvent.hover false] else [])
  let r0 := mouseButtonStep 0 oldB.1 newB.1 overMe f.Clicks0
  let r1 := mouseButtonStep 1 oldB.2.1 newB.2.1 overMe f.Clicks1
  let r2 := mouseButtonStep 2 oldB.2.2 newB.2.2 overMe f.Clicks2
  ({ f with MouseHovering := hovering, Clicks0 := r0.1, Clicks1 := r1.1, Clicks2 := r2.1 },
   hoverEvs ++ r0.2.1 ++ r1.2.1 ++ r2.2.1,
   r0.2.2 || r1.2.2 || r2.2.2)

mutual
/-- Element.MouseUpdate (main.go lines 441-489) on the tree: processes this
element, then walks the children in order with translated coordinates and the
refined over-flag, threading the selected pointer. -/
def mouseUpdateT (t : MTree) (path : List Nat) (selected : Option (List Nat))
    (x y : Int) (oldB newB : B3) (overMe : Bool) :
    MTree × Option (List Nat) × List (List Nat × MEvent) :=
  match t with
  | MTree.node f cs =>
    let r := mouseUpdateFields f oldB newB overMe
    let selected1 := if r.2.2 && f.Selectable then some path else selected
    let rc := mouseUpdateL cs path 0 selected1 x y oldB newB overMe
    (MTree.node r.1 rc.1, rc.2.1, r.2.1.map (fun ev => (path, ev)) ++ rc.2.2)

def mouseUpdateL (cs : MList) (parentPath : List Nat) (i : Nat)
    (selected : Option (List Nat)) (x y : Int) (oldB newB : B3) (overMe : Bool) :
    MList × Option (List Nat) × List (List Nat × MEvent) :=
  match cs with
  | MList.nil => (MList.nil, selected, [])
  | MList.cons c rest =>
    let cf := c.fields
    let overChild := overMe && inBox x y cf.LastRenderedX cf.LastRenderedY
      cf.LastRenderedWidth cf.LastRenderedHeight
    let rc := mouseUpdateT c (parentPath ++ [i]) selected
      (x - cf.LastRenderedX) (y - cf.LastRenderedY) oldB newB overChild
    let rr := mouseUpdateL rest parentPath (i + 1) rc.2.1 x y oldB newB overMe
    (MList.cons rc.1 rr.1, rr.2.1, rc.2.2 ++ rr.2.2)
end

mutual
/-- Element.DeselectAll (main.go lines 590-596). -/
def deselectAllT : MTree → MTree
  | MTree.node f cs => MTree.node { f with Selected := false } (deselectAllL cs)
def deselectAllL : MList → MList
  | MList.nil => MList.nil
  | MList.cons c rest => MList.cons (deselectAllT c) (deselectAllL rest)
end

mutual
def countSelectedT : MTree → Nat
  | MTree.node f cs => (if f.Selected then 1 else 0) + countSelectedL cs
def countSelectedL : MList → Nat
  | MList.nil => 0
  | MList.cons c rest => countSelectedT c + countSelectedL rest
end

mutual
/-- Setting `Selected := true` on the element addressed by a path; a path that
addresses no element leaves the tree unchanged. -/
def setSelectedT : MTree → List Nat → MTree
  | MTree.node f cs, [] => MTree.node { f with Selected := true } cs
  | MTree.node f cs, i :: p => MTree.node f (setSelectedL cs i p)
def setSelectedL : MList → Nat → List Nat → MList
  | MList.nil, _, _ => MList.nil
  | MList.cons c rest, 0, p => MList.cons (setSelectedT c p) rest
  | MList.cons c rest, i + 1, p => MList.cons c (setSelectedL rest i p)
end

mutual
/-- Selectable flag of the element addressed by a path (false when the path
addresses no element). -/
def selectableAtT : MTree → List Nat → Bool
  | MTree.node f _, [] => f.Selectable
  | MTree.node _ cs, i :: p => selectableAtL cs i p
def selectableAtL : MList → Nat → List Nat → Bool
  | MList.nil, _, _ => false
  | MList.cons c _, 0, p => selectableAtT c p
  | MList.cons _ rest, i + 1, p => selectableAtL rest i p
end

structure MouseInput where
  x : Int
  y : Int
  buttons : B3
deriving DecidableEq, Repr

/-- One mouse dispatch step of the main event loop (main.go lines 1069-1080):
a MouseUpdate pass from the root with `overMe = true`, then `root.DeselectAll()`
and, if a selected element is tracked and selectable, re-marking it. -/
def frameStep (root : MTree) (selected : Option (List Nat)) (oldB : B3)
    (inp : MouseInput) :
    MTree × Option (List Nat) × B3 × List (List Nat × MEvent) :=
  let r := mouseUpdateT root [] selected inp.x inp.y oldB inp.buttons true
  let root2 := deselectAllT r.1
  let root3 :=
    match r.2.1 with
    | none => root2
    | some p => if selectableAtT root2 p then setSelectedT root2 p else root2
  (root3, r.2.1, inp.buttons, r.2.2)

/-- Sequence of mouse dispatch steps; returns the final tree, tracked
selection, previous-button state, and the per-step event logs in order. -/
def frameRun (root : MTree) (selected : Option (List Nat)) (oldB : B3) :
    List MouseInput → MTree × Option (List Nat) × B3 × List (List (List Nat × MEvent))
  | [] => (root, selected, oldB, [])
  | inp :: rest =>
    let st := frameStep root selected oldB inp
    let r := frameRun st.1 st.2.1 st.2.2.1 rest
    (r.1, r.2.1, r.2.2.1, st.2.2.2 :: r.2.2.2)

/-! ## Per-button latch runs (claim C7)

A run feeds one element's button-`b` latch a sequence of passes; each pass
carries the current pressed state and the over-flag, and the previous pressed
state of pass i+1 is the current state of pass i, exactly as the main loop
copies `oldMouseButtonStates = newMouseButtonStates` after each dispatch
(main.go line 1074). -/

/-- Per-pass event lists of a latch run, driven by `mouseButtonStep`. -/
def latchRun (b : Nat) (oldState clicks : Bool) :
    List (Bool × Bool) → List (List MEvent)
  | [] => []
  | (newState, overMe) :: rest =>
    let r := mouseButtonStep b oldState newState overMe clicks
    r.2.1 :: latchRun b newState r.1 rest

/-- Current pressed state at pass `i` of a run. -/
def passNew (ps : List (Bool × Bool)) (i : Nat) : Bool := (ps.getD i (false, false)).1

/-- Over-flag at pass `i` of a run. -/
def passOver (ps : List (Bool × Bool)) (i : Nat) : Bool := (ps.getD i (false, false)).2

/-- Previous pressed state seen by pass `i` of a run starting from `oldState`. -/
def passOld (oldState : Bool) (ps : List (Bool × Bool)) : Nat → Bool
  | 0 => oldState
  | i + 1 => passNew ps i

/-- Press-while-over at pass `i`: the button goes from released to pressed
while the pointer is over the element. -/
def pressAt (oldState : Bool) (ps : List (Bool × Bool)) (i : Nat) : Prop :=
  passOld oldState ps i = false ∧ passNew ps i = true ∧ passOver ps i = true

/-! ## Render resource accounting (main.go: Element.Render lines 230-425,
Text.Render lines 75-100, Image.Render lines 116-123)

A render tree abstracts an element subtree by what Render allocates: a
content element renders its Text (surface allocation + texture allocation +
surface free) or Image (texture allocation) and then allocates its own texture
and destroys the content texture; a children element renders each child,
allocates its own texture, and destroys each child texture after compositing.
Counts are (allocations, releases) on the error-free path. -/

inductive RContent where
  | text : RContent
  | image : RContent
deriving DecidableEq, Repr

mutual
inductive RNode where
  | content : RContent → RNode
  | node : RList → RNode
deriving DecidableEq
inductive RList where
  | nil : RList
  | cons : RNode → RList → RList
deriving DecidableEq
end

/-- Allocations/releases of Content.Render: Text.Render allocates the glyph
surface and the texture and frees the surface (lines 75-100); Image.Render
allocates the texture from the retained surface (lines 116-123). -/
def contentRenderCounts : RContent → Nat × Nat
  | RContent.text => (2, 1)
  | RContent.image => (1, 0)

mutual
/-- Allocations/releases of Element.Render on the error-free path.  Content
branch (lines 233-292): content render counts, plus the element texture
allocation and the content texture destroy.  Children branch (lines 294-421):
the children's counts, plus the element texture allocation and one destroy
per child texture (line 411). -/
def renderCounts : RNode → Nat × Nat
  | RNode.content c =>
    let cc := contentRenderCounts c
    (cc.1 + 1, cc.2 + 1)
  | RNode.node cs =>
    let cl := renderCountsL cs
    (cl.1 + 1, cl.2.1 + cl.2.2)

/-- Summed counts of a child list together with the number of children. -/
def renderCountsL : RList → Nat × Nat × Nat
  | RList.nil => (0, 0, 0)
  | RList.cons t rest =>
    let ct := renderCounts t
    let cr := renderCountsL rest
    (ct.1 + cr.1, ct.2 + cr.2.1, cr.2.2 + 1)
end

/-! # Theorems -/

/-! ## Generic list helpers -/

theorem cursorCount_append (a b : List Row) :
    cursorCount (a ++ b) = cursorCount a + cursorCount b := by
  induction a with
  | nil => simp [cursorCount]
  | cons r rs ih => simp [cursorCount, ih]; omega

theorem getD_append_len {α : Type} (a : List α) (r : α) (b : List α) (d : α) :
    (a ++ r :: b).getD a.length d = r := by
  induction a with
  | nil => rfl
  | cons x xs ih => simpa using ih

theorem getElem_append_len {α : Type} (a : List α) (r : α) (b : List α)
    (h : a.length < (a ++ r :: b).length) :
    (a ++ r :: b)[a.length] = r := by
  induction a with
  | nil => rfl
  | cons x xs ih => simpa using ih (by simp only [List.length_cons, List.length_append] at h ⊢; omega)

theorem set_append_len {α : Type} (a : List α) (r v : α) (b : List α) :
    (a ++ r :: b).set a.length v = a ++ v :: b := by
  induction a with
  | nil => rfl
  | cons x xs ih => simp [List.set, ih]

theorem eraseIdx_append_len {α : Type} (a : List α) (r : α) (b : List α) :
    (a ++ r :: b).eraseIdx a.length = a ++ b := by
  induction a with
  | nil => rfl
  | cons x xs ih => simp [List.eraseIdx, ih]

theorem getD_append_len_succ {α : Type} (a : List α) (r v : α) (b : List α) (d : α) :
    (a ++ r :: v :: b).getD (a.length + 1) d = v := by
  induction a with
  | nil => rfl
  | cons x xs ih => simpa using ih

theorem set_append_len_succ {α : Type} (a : List α) (r v w : α) (b : List α) :
    (a ++ r :: v :: b).set (a.length + 1) w = a ++ r :: w :: b := by
  induction a with
  | nil => rfl
  | cons x xs ih => simp [List.set, ih]

theorem eraseIdx_append_len_succ {α : Type} (a : List α) (r v : α) (b : List α) :
    (a ++ r :: v :: b).eraseIdx (a.length + 1) = a ++ r :: b := by
  induction a with
  | nil => rfl
  | cons x xs ih => simp [List.eraseIdx, ih]

theorem insertChildAt_zero {α : Type} (l : List α) (c : α) :
    insertChildAt l c 0 = c :: l := by
  cases l <;> simp [insertChildAt]

theorem insertChildAt_cons {α : Type} (x : α) (l : List α) (c : α) (i : Nat) :
    insertChildAt (x :: l) c (i + 1) = x :: insertChildAt l c i := by
  unfold insertChildAt
  by_cases h : l.length ≤ i
  · rw [if_pos (by simpa using h), if_pos h]; simp
  · rw [if_neg (by simpa using h), if_neg h]
    simp [List.take_succ_cons, List.drop_succ_cons]

theorem insertChildAt_append_len {α : Type} (a : List α) (r : α) (b : List α) (v : α) :
    insertChildAt (a ++ r :: b) v (a.length + 1) = a ++ r :: v :: b := by
  induction a with
  | nil => simp [insertChildAt_cons, insertChildAt_zero]
  | cons x xs ih =>
    have : (x :: xs).length + 1 = (xs.length + 1) + 1 := by simp
    rw [List.cons_append, this, insertChildAt_cons]
    simpa using ih

theorem insertChildAt_count_cursor (l : List Cell) (i : Nat) :
    (insertChildAt l Cell.cursor i).count Cell.cursor = l.count Cell.cursor + 1 := by
  unfold insertChildAt
  split
  · simp
  · have : (l.take i).count Cell.cursor + (l.drop i).count Cell.cursor = l.count Cell.cursor := by
      conv_rhs => rw [← List.take_append_drop i l]
      rw [List.count_append]
    rw [List.count_append, List.count_cons]
    simp
    omega

theorem insertChildAt_get (l : List Cell) (c : Cell) (i : Nat) (h : i ≤ l.length) :
    (insertChildAt l c i).get? i = some c := by
  unfold insertChildAt
  split
  · have : i = l.length := by omega
    subst this
    rw [List.get?_eq_getElem?, List.getElem?_append_right (Nat.le_refl _)]
    simp
  · rw [List.get?_eq_getElem?]
    have hlt : i < l.length := by omega
    have hti : (l.take i).length = i := by simp; omega
    rw [List.getElem?_append_right (by omega), hti]
    simp

theorem mergeRows_spec (src dst : Row) (n : Nat) :
    mergeRows src dst n = (dst ++ src, n + src.length) := by
  induction src generalizing dst n with
  | nil => simp [mergeRows]
  | cons c rest ih => simp [mergeRows, ih]; omega

theorem transferAll_spec (src dst : Row) :
    transferAll src dst = dst ++ src := by
  induction src generalizing dst with
  | nil => simp [transferAll]
  | cons c rest ih => simp [transferAll, ih]

theorem moveTailFuel_spec (fuel x : Nat) (src line : Row)
    (hf : src.length ≤ fuel + x) :
    moveTailFuel fuel x src line = (src.take x, line ++ src.drop x) := by
  induction fuel generalizing src line with
  | zero =>
    have hle : src.length ≤ x := by omega
    simp [moveTailFuel, List.take_of_length_le hle, List.drop_eq_nil_of_le hle]
  | succ n ih =>
    unfold moveTailFuel
    split
    · next h =>
      have hlen : (src.eraseIdx x).length = src.length - 1 := by
        have := List.length_eraseIdx_add_one h; omega
      rw [ih (src.eraseIdx x) (line ++ [src.get ⟨x, h⟩]) (by omega)]
      have he : src.eraseIdx x = src.take x ++ src.drop (x + 1) :=
        List.eraseIdx_eq_take_drop_succ src x
      have hxt : (src.take x).length = x := by simp; omega
      have h1 : (src.eraseIdx x).take x = src.take x := by
        rw [he, List.take_append_eq_append_take, hxt]
        simp [List.take_take]
      have h2 : [src.get ⟨x, h⟩] ++ (src.eraseIdx x).drop x = src.drop x := by
        rw [he, List.drop_append_eq_append_drop, hxt]
        simp only [List.drop_take, Nat.sub_self, List.drop_zero]
        rw [List.get_eq_getElem]
        have hc := List.drop_eq_getElem_cons h
        simp [hc.symm]
      rw [h1, List.append_assoc, h2]
    · next h =>
      have hle : src.length ≤ x := by omega
      simp [List.take_of_length_le hle, List.drop_eq_nil_of_le hle]

theorem moveTail_spec (x : Nat) (src line : Row) :
    moveTail x src line = (src.take x, line ++ src.drop x) :=
  moveTailFuel_spec src.length x src line (by omega)

/-! ## Claim C2: text editing round-trip -/

/-- Claim C2: starting from the empty document (one empty row, cursor at row 0
column 0), writeChar with the bytes of ab, newline, c yields two rows whose
character contents are "ab" and "c"; from the same document with the cursor at
row 1 column 0, writeChar backspace merges the rows into a single row "abc"
with the cursor at column 2. -/
theorem c2_round_trip :
    ((writeChar (writeChar (writeChar (writeChar initialEditor 97) 98) 10) 99).rows.map rowChars
        = [[97, 98], [99]] ∧
      (writeChar (writeChar (writeChar (writeChar initialEditor 97) 98) 10) 99).y = 1) ∧
    ((writeChar ⟨[[Cell.char 97, Cell.char 98], [Cell.cursor, Cell.char 99]], 0, 1⟩ 8).rows.map rowChars
        = [[97, 98, 99]] ∧
      (writeChar ⟨[[Cell.char 97, Cell.char 98], [Cell.cursor, Cell.char 99]], 0, 1⟩ 8).rows.length = 1 ∧
      (writeChar ⟨[[Cell.char 97, Cell.char 98], [Cell.cursor, Cell.char 99]], 0, 1⟩ 8).x = 2 ∧
      (writeChar ⟨[[Cell.char 97, Cell.char 98], [Cell.cursor, Cell.char 99]], 0, 1⟩ 8).y = 0) := by
  decide

/-! ## Claim C3: Content-branch min-size clamping -/

/-- Claim C3 (code defect): the Content branch is supposed to clamp the final
width up to MinWidth and the final height up to MinHeight, each on its own
axis, but the source (main.go lines 258-260) assigns the min-height clamp to
the width variable.  At content size 50 x 1, unconstrained resolved size,
MinWidth 100 and MinHeight 5, the recorded final size is (5, 1): the height is
below MinHeight and the width is below MinWidth. -/
theorem c3_content_min_clamp_defect :
    contentBranchSize 50 1 (-1) (-1) 100 5 = (5, 1) ∧
    (contentBranchSize 50 1 (-1) (-1) 100 5).2 < 5 ∧
    (contentBranchSize 50 1 (-1) (-1) 100 5).1 < 100 := by
  decide

/-! ## Claim C10: InsertChild behaviour -/

/-- Claim C10: InsertChild with an index at least the child count behaves
identically to AppendChild (appending at the end, no out-of-range access);
for an in-range index the child is placed at that index and later children
shift right by one; in both cases the child's parent back-reference is set,
the parent's Content is cleared, and earlier children are unchanged. -/
theorem c10_insertChild_spec :
    ∀ (e c : ElemN) (i : Nat),
      (e.Children.length ≤ i →
        elemInsertChild e c i = elemAppendChild e c ∧
        (elemInsertChild e c i).1.Children = e.Children ++ [c.id]) ∧
      (i < e.Children.length →
        (elemInsertChild e c i).1.Children = e.Children.take i ++ c.id :: e.Children.drop i ∧
        (elemInsertChild e c i).1.Children.length = e.Children.length + 1 ∧
        (elemInsertChild e c i).1.Children[i]? = some c.id ∧
        (∀ j, j < i → (elemInsertChild e c i).1.Children[j]? = e.Children[j]?) ∧
        (∀ j, i ≤ j → (elemInsertChild e c i).1.Children[j + 1]? = e.Children[j]?)) ∧
      (elemInsertChild e c i).2.ParentId = some e.id ∧
      (elemInsertChild e c i).1.ContentId = none := by
  intro e c i
  refine ⟨fun h => ?_, fun h => ?_, ?_, ?_⟩
  · rw [elemInsertChild, if_pos h]
    exact ⟨rfl, rfl⟩
  · rw [elemInsertChild, if_neg (by omega)]
    have htl : (e.Children.take i).length = i := by simp; omega
    refine ⟨rfl, by simp; omega, ?_, ?_, ?_⟩
    · simp only []
      rw [List.getElem?_append_right (by omega), htl, Nat.sub_self]
      simp
    · intro j hj
      simp only []
      rw [List.getElem?_append_left (by omega), List.getElem?_take]
      simp [hj]
    · intro j hj
      simp only []
      rw [List.getElem?_append_right (by omega), htl]
      have : j + 1 - i = (j - i) + 1 := by omega
      rw [this]
      simp only [List.getElem?_cons_succ]
      rw [List.getElem?_drop]
      congr 1
      omega
  · unfold elemInsertChild elemAppendChild
    split <;> rfl
  · unfold elemInsertChild elemAppendChild
    split <;> rfl

/-- Witness for c10_insertChild_spec at a concrete parent with two children,
exercising both the append fallback and the in-range splice. -/
theorem c10_insertChild_witness :
    ((5 : Nat) ≤ (⟨1, none, some 7, [10, 11]⟩ : ElemN).Children.length → False) ∧
    (1 < (⟨1, none, some 7, [10, 11]⟩ : ElemN).Children.length) ∧
    (elemInsertChild ⟨1, none, some 7, [10, 11]⟩ ⟨99, none, none, []⟩ 1).1.Children
      = [10, 99, 11] ∧
    (elemInsertChild ⟨1, none, some 7, [10, 11]⟩ ⟨99, none, none, []⟩ 5).1.Children
      = [10, 11, 99] ∧
    (elemInsertChild ⟨1, none, some 7, [10, 11]⟩ ⟨99, none, none, []⟩ 1).2.ParentId = some 1 ∧
    (elemInsertChild ⟨1, none, some 7, [10, 11]⟩ ⟨99, none, none, []⟩ 1).1.ContentId = none := by
  refine ⟨by decide, by decide, ?_, ?_, ?_, ?_⟩
  · have h := ((c10_insertChild_spec ⟨1, none, some 7, [10, 11]⟩ ⟨99, none, none, []⟩ 1).2.1
      (by decide)).1
    simpa using h
  · have h := ((c10_insertChild_spec ⟨1, none, some 7, [10, 11]⟩ ⟨99, none, none, []⟩ 5).1
      (by decide)).2
    simpa using h
  · exact (c10_insertChild_spec ⟨1, none, some 7, [10, 11]⟩ ⟨99, none, none, []⟩ 1).2.2.1
  · exact (c10_insertChild_spec ⟨1, none, some 7, [10, 11]⟩ ⟨99, none, none, []⟩ 1).2.2.2

/-! ## Claim C4: Children-branch final size -/

/-- Counterexample to claim C4 as stated: for an unconstrained container
(configured Width -1, MinWidth 0) with a single 40-wide child, the code's
final width is 0 (the resolved configured width clamped to MinWidth), while
the claimed rule (content extent when the configured width is negative) gives
40.  The `if e.Width >= 0` branch at main.go line 365 assigns a value that
`maxWidth` already holds, so the content extent never feeds the final
width. -/
theorem c4_width_counterexample :
    (renderChildren ⟨-1, 0, -1, 0, false, false, 0, 0⟩ (-1) (-1)
        [⟨40, 10, 0, false, 0, false, false, false⟩]).childExtentW = 40 ∧
    (renderChildren ⟨-1, 0, -1, 0, false, false, 0, 0⟩ (-1) (-1)
        [⟨40, 10, 0, false, 0, false, false, false⟩]).finalW = 0 ∧
    (specChildrenSize ⟨-1, 0, -1, 0, false, false, 0, 0⟩ (-1) (-1) 40 10).1 = 40 ∧
    (0 : Int) ≠ 40 := by
  decide

/-- Claim C4 as amended: the rendered height follows the claimed rule (the
resolved configured height when the configured Height is non-negative,
otherwise the accumulated content extent, clamped upward to MinHeight), but
the rendered width is always the resolved configured width clamped upward to
MinWidth; the computed child extent never feeds the rendered width. -/
theorem c4_children_size :
    ∀ (cfg : ContainerCfg) (realWidth realHeight : Int) (children : List LayoutChild),
      (renderChildren cfg realWidth realHeight children).finalW = max realWidth cfg.MinWidth ∧
      (renderChildren cfg realWidth realHeight children).finalH =
        max (if cfg.Height ≥ 0 then realHeight
             else (renderChildren cfg realWidth realHeight children).childExtentH)
          cfg.MinHeight := by
  intro cfg rW rH cs
  simp only [renderChildren]
  constructor
  · split_ifs <;> omega
  · split_ifs <;> omega

/-! ## Claim C5: wrap-flow placement -/

/-- Claim C5: for a container of absolute width 100 (ScrollX false) with three
non-inline, non-breaking, margin-free children of width 40, the cached
placements are (0,0), (40,0), (0,H) with H the first line's height (the
running line height after the first two children); and in general one
placement step starts a new line (x reset to 0, y advanced by the completed
line's height) exactly when the child is not inline and its plac­ement would
exceed the container width on a non-scrollable axis, or the previous child is
marked breaking. -/
theorem c5_wrap_flow :
    (∀ h0 h1 h2 : Int, 0 ≤ h0 → 0 ≤ h1 →
      (renderChildren ⟨100, 0, -1, 0, false, false, 0, 0⟩ 100 (-1)
          [⟨40, h0, 0, false, 0, false, false, false⟩,
           ⟨40, h1, 0, false, 0, false, false, false⟩,
           ⟨40, h2, 0, false, 0, false, false, false⟩]).placements
        = [(0, 0), (40, 0), (0, max h0 h1)]) ∧
    (∀ (maxWidth realWidth realHeight : Int) (scrollX : Bool) (spx spy : Int)
        (prevBreaking : Bool) (st : FlowState) (ch : LayoutChild),
      (flowStep maxWidth realWidth realHeight scrollX spx spy prevBreaking st ch).placements
        = st.placements ++
          [if wrapDecision ch (st.currentX + ch.width + resolvedMarginX ch realWidth)
              maxWidth scrollX prevBreaking then
            (0 + resolvedMarginX ch realWidth - spx,
             st.currentY + st.currentLineHeight + resolvedMarginY ch realHeight - spy)
          else
            (st.currentX + resolvedMarginX ch realWidth - spx,
             st.currentY + resolvedMarginY ch realHeight - spy)]) := by
  constructor
  · intro h0 h1 h2 hh0 hh1
    simp only [renderChildren, flowChildren, flowStep, wrapDecision,
      resolvedMarginX, resolvedMarginY]
    norm_num
    split_ifs <;> omega
  · intro maxWidth realWidth realHeight scrollX spx spy prevBreaking st ch
    simp only [flowStep]
    split_ifs <;> simp

/-- Witness for c5_wrap_flow at child heights 7, 9, 5: the third child is
placed at (0, 9), the height of the first line. -/
theorem c5_wrap_flow_witness :
    (0 : Int) ≤ 7 ∧ (0 : Int) ≤ 9 ∧
    (renderChildren ⟨100, 0, -1, 0, false, false, 0, 0⟩ 100 (-1)
        [⟨40, 7, 0, false, 0, false, false, false⟩,
         ⟨40, 9, 0, false, 0, false, false, false⟩,
         ⟨40, 5, 0, false, 0, false, false, false⟩]).placements
      = [(0, 0), (40, 0), (0, max 7 9)] :=
  ⟨by decide, by decide, c5_wrap_flow.1 7 9 5 (by decide) (by decide)⟩

/-! ## Claim C8: scroll offsets stay clamped -/

theorem scrollIter_x_off (g : ScrollGeom) (a b : Int) (i : Nat)
    (st : Int × Int × Bool) (h : g.ScrollXFlag = false) :
    (scrollIter g a b i st).1 = st.1 := by
  obtain ⟨spx, spy, sc⟩ := st
  simp [scrollIter, h]

theorem scrollIter_y_off (g : ScrollGeom) (a b : Int) (i : Nat)
    (st : Int × Int × Bool) (h : g.ScrollYFlag = false) :
    (scrollIter g a b i st).2.1 = st.2.1 := by
  obtain ⟨spx, spy, sc⟩ := st
  simp [scrollIter, h]

theorem scrollIter_x_clamp (g : ScrollGeom) (a b : Int) (i : Nat)
    (st : Int × Int × Bool) (hi : i ≠ 0) (h : g.ScrollXFlag = true) :
    0 ≤ (scrollIter g a b i st).1 ∧
    (scrollIter g a b i st).1 ≤ max 0 (g.LastRenderedChildWidth - g.LastRenderedWidth) := by
  obtain ⟨spx, spy, sc⟩ := st
  simp only [scrollIter, h]
  split_ifs <;> simp <;> omega

theorem scrollIter_y_clamp (g : ScrollGeom) (a b : Int) (i : Nat)
    (st : Int × Int × Bool) (hi : i ≠ 0) (h : g.ScrollYFlag = true) :
    0 ≤ (scrollIter g a b i st).2.1 ∧
    (scrollIter g a b i st).2.1 ≤ max 0 (g.LastRenderedChildHeight - g.LastRenderedHeight) := by
  obtain ⟨spx, spy, sc⟩ := st
  simp only [scrollIter, h]
  split_ifs <;> simp <;> omega

theorem scrollSelf_clamp (g : ScrollGeom) (mx my sx sy spx spy : Int)
    (hx0 : 0 ≤ spx)
    (hx1 : spx ≤ max 0 (g.LastRenderedChildWidth - g.LastRenderedWidth))
    (hy0 : 0 ≤ spy)
    (hy1 : spy ≤ max 0 (g.LastRenderedChildHeight - g.LastRenderedHeight)) :
    0 ≤ (scrollSelf g mx my sx sy spx spy).1 ∧
    (scrollSelf g mx my sx sy spx spy).1
      ≤ max 0 (g.LastRenderedChildWidth - g.LastRenderedWidth) ∧
    0 ≤ (scrollSelf g mx my sx sy spx spy).2.1 ∧
    (scrollSelf g mx my sx sy spx spy).2.1
      ≤ max 0 (g.LastRenderedChildHeight - g.LastRenderedHeight) := by
  unfold scrollSelf
  split
  · exact ⟨hx0, hx1, hy0, hy1⟩
  · split
    · exact ⟨hx0, hx1, hy0, hy1⟩
    · set a := if !g.ScrollYFlag || g.LastRenderedHeight ≥ g.LastRenderedChildHeight
        then sy else sx with ha
      set s0 := scrollIter g a sy 0 (spx, spy, false) with hs0
      set s1 := scrollIter g a sy 1 s0 with hs1
      have hx : 0 ≤ (scrollIter g a sy 2 s1).1 ∧
          (scrollIter g a sy 2 s1).1
            ≤ max 0 (g.LastRenderedChildWidth - g.LastRenderedWidth) := by
        cases hfx : g.ScrollXFlag with
        | true => exact scrollIter_x_clamp g a sy 2 s1 (by omega) hfx
        | false =>
          rw [scrollIter_x_off g a sy 2 s1 hfx, hs1,
            scrollIter_x_off g a sy 1 s0 hfx, hs0,
            scrollIter_x_off g a sy 0 (spx, spy, false) hfx]
          exact ⟨hx0, hx1⟩
      have hy : 0 ≤ (scrollIter g a sy 2 s1).2.1 ∧
          (scrollIter g a sy 2 s1).2.1
            ≤ max 0 (g.LastRenderedChildHeight - g.LastRenderedHeight) := by
        cases hfy : g.ScrollYFlag with
        | true => exact scrollIter_y_clamp g a sy 2 s1 (by omega) hfy
        | false =>
          rw [scrollIter_y_off g a sy 2 s1 hfy, hs1,
            scrollIter_y_off g a sy 1 s0 hfy, hs0,
            scrollIter_y_off g a sy 0 (spx, spy, false) hfy]
          exact ⟨hy0, hy1⟩
      exact ⟨hx.1, hx.2, hy.1, hy.2⟩

/-- Claim C8: for any element and any sequence of Scroll calls with arbitrary
pointer positions and wheel deltas, the scroll offsets stay within
[0, max 0 (content extent - view extent)] on each axis, provided they start
there (elements start at offset 0, which is always in range). -/
theorem c8_scroll_clamped :
    ∀ (g : ScrollGeom) (spx spy : Int) (calls : List ScrollCall),
      0 ≤ spx → spx ≤ max 0 (g.LastRenderedChildWidth - g.LastRenderedWidth) →
      0 ≤ spy → spy ≤ max 0 (g.LastRenderedChildHeight - g.LastRenderedHeight) →
      0 ≤ (scrollRun g spx spy calls).1 ∧
      (scrollRun g spx spy calls).1
        ≤ max 0 (g.LastRenderedChildWidth - g.LastRenderedWidth) ∧
      0 ≤ (scrollRun g spx spy calls).2 ∧
      (scrollRun g spx spy calls).2
        ≤ max 0 (g.LastRenderedChildHeight - g.LastRenderedHeight) := by
  intro g spx spy calls
  induction calls generalizing spx spy with
  | nil => intro hx0 hx1 hy0 hy1; exact ⟨hx0, hx1, hy0, hy1⟩
  | cons c rest ih =>
    intro hx0 hx1 hy0 hy1
    have h := scrollSelf_clamp g c.mouseX c.mouseY c.scrollX c.scrollY spx spy hx0 hx1 hy0 hy1
    exact ih _ _ h.1 h.2.1 h.2.2.1 h.2.2.2

/-- Witness for c8_scroll_clamped: a scrollable 100 x 100 element with
400 x 300 content, starting at offset (0, 0), one wheel event. -/
theorem c8_scroll_clamped_witness :
    ((0 : Int) ≤ 0 ∧
      (0 : Int) ≤ max 0 ((⟨0, 0, 100, 100, 400, 300, true, true, false⟩ : ScrollGeom).LastRenderedChildWidth - 100)) ∧
    0 ≤ (scrollRun ⟨0, 0, 100, 100, 400, 300, true, true, false⟩ 0 0 [⟨5, 5, 2, -3⟩]).1 ∧
    (scrollRun ⟨0, 0, 100, 100, 400, 300, true, true, false⟩ 0 0 [⟨5, 5, 2, -3⟩]).2
      ≤ max 0 ((300 : Int) - 100) :=
  ⟨⟨by decide, by decide⟩,
    (c8_scroll_clamped ⟨0, 0, 100, 100, 400, 300, true, true, false⟩ 0 0 [⟨5, 5, 2, -3⟩]
      (by decide) (by decide) (by decide) (by decide)).1,
    (c8_scroll_clamped ⟨0, 0, 100, 100, 400, 300, true, true, false⟩ 0 0 [⟨5, 5, 2, -3⟩]
      (by decide) (by decide) (by decide) (by decide)).2.2.2⟩

/-! ## Claim C9: render allocations balance releases plus one -/

mutual
theorem renderBalanceAux : ∀ t : RNode, (renderCounts t).1 = (renderCounts t).2 + 1
  | RNode.content c => by
    cases c <;> simp [renderCounts, contentRenderCounts]
  | RNode.node cs => by
    have h := renderBalanceAuxL cs
    simp only [renderCounts]
    omega
theorem renderBalanceAuxL : ∀ l : RList,
    (renderCountsL l).1 = (renderCountsL l).2.1 + (renderCountsL l).2.2
  | RList.nil => by simp [renderCountsL]
  | RList.cons t rest => by
    have h1 := renderBalanceAux t
    have h2 := renderBalanceAuxL rest
    simp only [renderCountsL]
    omega
end

/-- Claim C9: during every error-free Render of a subtree, the number of
surface/texture allocations (content textures, per-child textures, the
element texture, recursively) equals the number of releases plus one, the
surplus being the texture returned to the caller. -/
theorem c9_render_resource_balance :
    ∀ t : RNode, (renderCounts t).1 = (renderCounts t).2 + 1 :=
  renderBalanceAux

/-! ## Claim C6: at most one selected element -/

mutual
theorem countSelected_deselectT : ∀ t : MTree, countSelectedT (deselectAllT t) = 0
  | MTree.node f cs => by
    have h := countSelected_deselectL cs
    simp [deselectAllT, countSelectedT, h]
theorem countSelected_deselectL : ∀ l : MList, countSelectedL (deselectAllL l) = 0
  | MList.nil => by simp [deselectAllL, countSelectedL]
  | MList.cons c rest => by
    have h1 := countSelected_deselectT c
    have h2 := countSelected_deselectL rest
    simp [deselectAllL, countSelectedL, h1, h2]
end

mutual
theorem countSelected_setT : ∀ (t : MTree) (p : List Nat),
    countSelectedT (setSelectedT t p) ≤ countSelectedT t + 1
  | MTree.node f cs, [] => by
    simp only [setSelectedT, countSelectedT]
    split <;> split <;> omega
  | MTree.node f cs, i :: p => by
    have h := countSelected_setL cs i p
    simp only [setSelectedT, countSelectedT]
    omega
theorem countSelected_setL : ∀ (l : MList) (i : Nat) (p : List Nat),
    countSelectedL (setSelectedL l i p) ≤ countSelectedL l + 1
  | MList.nil, _, _ => by simp [setSelectedL]
  | MList.cons c rest, 0, p => by
    have h := countSelected_setT c p
    simp only [setSelectedL, countSelectedL]
    omega
  | MList.cons c rest, i + 1, p => by
    have h := countSelected_setL rest i p
    simp only [setSelectedL, countSelectedL]
    omega
end

theorem frameStep_selected_le_one (root : MTree) (selected : Option (List Nat))
    (oldB : B3) (inp : MouseInput) :
    countSelectedT (frameStep root selected oldB inp).1 ≤ 1 := by
  unfold frameStep
  simp only []
  split
  · rw [countSelected_deselectT]; omega
  · rename_i p heq
    split
    · have h1 := countSelected_setT
        (deselectAllT (mouseUpdateT root [] selected inp.x inp.y oldB inp.buttons true).1) p
      have h2 := countSelected_deselectT
        (mouseUpdateT root [] selected inp.x inp.y oldB inp.buttons true).1
      omega
    · rw [countSelected_deselectT]; omega

theorem frameRun_selected_invariant :
    ∀ (inps : List MouseInput) (root : MTree) (selected : Option (List Nat)) (oldB : B3),
      countSelectedT root ≤ 1 →
      countSelectedT (frameRun root selected oldB inps).1 ≤ 1 := by
  intro inps
  induction inps with
  | nil => intro root selected oldB h; exact h
  | cons inp rest ih =>
    intro root selected oldB _
    simp only [frameRun]
    exact ih _ _ _ (frameStep_selected_le_one root selected oldB inp)

/-- Claim C6: after any non-empty sequence of mouse dispatch steps (each a
MouseUpdate pass over the tree followed by the frame's deselect-all and
re-select of the tracked selected element), at most one element in the tree
has Selected = true, regardless of which selectable elements received
button-down events. -/
theorem c6_single_selection :
    ∀ (inps : List MouseInput) (root : MTree) (selected : Option (List Nat)) (oldB : B3),
      inps ≠ [] →
      countSelectedT (frameRun root selected oldB inps).1 ≤ 1 := by
  intro inps root selected oldB h
  cases inps with
  | nil => exact absurd rfl h
  | cons inp rest =>
    simp only [frameRun]
    exact frameRun_selected_invariant rest _ _ _
      (frameStep_selected_le_one root selected oldB inp)

/-- Witness for c6_single_selection: two selectable siblings, two presses over
different elements; one element remains selected. -/
theorem c6_single_selection_witness :
    ([(⟨5, 5, (true, false, false)⟩ : MouseInput), ⟨15, 5, (true, false, false)⟩] ≠ []) ∧
    countSelectedT (frameRun
      (MTree.node ⟨false, false, false, false, false, false, 0, 0, 1280, 720⟩
        (MList.cons (MTree.node ⟨true, false, false, false, false, false, 0, 0, 10, 10⟩ MList.nil)
          (MList.cons (MTree.node ⟨true, false, false, false, false, false, 10, 0, 10, 10⟩ MList.nil)
            MList.nil)))
      none (false, false, false)
      [⟨5, 5, (true, false, false)⟩, ⟨15, 5, (true, false, false)⟩]).1 ≤ 1 :=
  ⟨by decide,
    c6_single_selection [⟨5, 5, (true, false, false)⟩, ⟨15, 5, (true, false, false)⟩]
      (MTree.node ⟨false, false, false, false, false, false, 0, 0, 1280, 720⟩
        (MList.cons (MTree.node ⟨true, false, false, false, false, false, 0, 0, 10, 10⟩ MList.nil)
          (MList.cons (MTree.node ⟨true, false, false, false, false, false, 10, 0, 10, 10⟩ MList.nil)
            MList.nil)))
      none (false, false, false) (by decide)⟩

/-! ## Claim C7: Click requires press-and-hold over the same element -/

theorem mbs_click_iff (b : Nat) (oldState newState overMe clicks : Bool) :
    MEvent.click b ∈ (mouseButtonStep b oldState newState overMe clicks).2.1 ↔
      (oldState = true ∧ newState = false ∧ overMe = true ∧ clicks = true) := by
  cases oldState <;> cases newState <;> cases overMe <;> cases clicks <;>
    simp [mouseButtonStep]

theorem mbs_latch_true (b : Nat) (oldState newState overMe clicks : Bool)
    (h : (mouseButtonStep b oldState newState overMe clicks).1 = true) :
    overMe = true ∧ newState = true ∧ (clicks = true ∨ oldState = false) := by
  cases oldState <;> cases newState <;> cases overMe <;> cases clicks <;>
    simp_all [mouseButtonStep]

theorem passNew_cons_zero (p : Bool × Bool) (rest : List (Bool × Bool)) :
    passNew (p :: rest) 0 = p.1 := by
  simp [passNew]

theorem passOver_cons_zero (p : Bool × Bool) (rest : List (Bool × Bool)) :
    passOver (p :: rest) 0 = p.2 := by
  simp [passOver]

theorem passNew_cons_succ (p : Bool × Bool) (rest : List (Bool × Bool)) (i : Nat) :
    passNew (p :: rest) (i + 1) = passNew rest i := by
  simp [passNew]

theorem passOver_cons_succ (p : Bool × Bool) (rest : List (Bool × Bool)) (i : Nat) :
    passOver (p :: rest) (i + 1) = passOver rest i := by
  simp [passOver]

theorem passOld_cons (oldState : Bool) (p : Bool × Bool) (rest : List (Bool × Bool)) (k : Nat) :
    passOld oldState (p :: rest) (k + 1) = passOld p.1 rest k := by
  cases k with
  | zero => simp [passOld, passNew]
  | succ i => simp [passOld, passNew]

theorem pressAt_cons (oldState : Bool) (p : Bool × Bool) (rest : List (Bool × Bool)) (j : Nat) :
    pressAt oldState (p :: rest) (j + 1) ↔ pressAt p.1 rest j := by
  unfold pressAt
  rw [passOld_cons, passNew_cons_succ, passOver_cons_succ]

theorem latchRun_click_sound :
    ∀ (b : Nat) (ps : List (Bool × Bool)) (oldState clicks : Bool) (k : Nat),
      MEvent.click b ∈ (latchRun b oldState clicks ps).getD k [] →
      passOld oldState ps k = true ∧ passNew ps k = false ∧ passOver ps k = true ∧
      ((clicks = true ∧ ∀ i, i < k → passOver ps i = true ∧ passNew ps i = true) ∨
       (∃ j, j < k ∧ pressAt oldState ps j ∧
         ∀ i, j ≤ i → i < k → passOver ps i = true ∧ passNew ps i = true)) := by
  intro b ps
  induction ps with
  | nil =>
    intro oldState clicks k h
    simp [latchRun] at h
  | cons p rest ih =>
    intro oldState clicks k h
    obtain ⟨n, o⟩ := p
    cases k with
    | zero =>
      simp only [latchRun, List.getD_cons_zero] at h
      have hc := (mbs_click_iff b oldState n o clicks).mp h
      refine ⟨hc.1, ?_, ?_, Or.inl ⟨hc.2.2.2, fun i hi => absurd hi (by omega)⟩⟩
      · rw [passNew_cons_zero]; exact hc.2.1
      · rw [passOver_cons_zero]; exact hc.2.2.1
    | succ k =>
      simp only [latchRun, List.getD_cons_succ] at h
      have hih := ih n (mouseButtonStep b oldState n o clicks).1 k h
      obtain ⟨h1, h2, h3, h4⟩ := hih
      refine ⟨by rw [passOld_cons]; exact h1,
        by rw [passNew_cons_succ]; exact h2,
        by rw [passOver_cons_succ]; exact h3, ?_⟩
      rcases h4 with ⟨hcl, hrange⟩ | ⟨j, hjk, hpress, hrange⟩
      · have hl := mbs_latch_true b oldState n o clicks hcl
        rcases hl.2.2 with hclT | holdF
        · refine Or.inl ⟨hclT, fun i hi => ?_⟩
          cases i with
          | zero =>
            rw [passOver_cons_zero, passNew_cons_zero]
            exact ⟨hl.1, hl.2.1⟩
          | succ i =>
            rw [passOver_cons_succ, passNew_cons_succ]
            exact hrange i (by omega)
        · refine Or.inr ⟨0, by omega, ⟨holdF, ?_, ?_⟩, fun i hji hik => ?_⟩
          · rw [passNew_cons_zero]; exact hl.2.1
          · rw [passOver_cons_zero]; exact hl.1
          · cases i with
            | zero =>
              rw [passOver_cons_zero, passNew_cons_zero]
              exact ⟨hl.1, hl.2.1⟩
            | succ i =>
              rw [passOver_cons_succ, passNew_cons_succ]
              exact hrange i (by omega)
      · refine Or.inr ⟨j + 1, by omega, (pressAt_cons oldState (n, o) rest j).mpr hpress,
          fun i hji hik => ?_⟩
        cases i with
        | zero => omega
        | succ i =>
          rw [passOver_cons_succ, passNew_cons_succ]
          exact hrange i (by omega) (by omega)

/-- Claim C7: a Click is only emitted for a button on an element when that
button was pressed while the pointer was over the element and the pointer
stayed over it on every dispatch pass up to and including the releasing pass
(which is a release: the button is up on that pass).  In particular, in the
concrete tree scenario where button 0 is pressed over child A, the pointer
moves to child B while held, and the button is released over B, the third
pass emits ButtonUp on B but no Click is ever emitted on A or on B. -/
theorem c7_click_press_and_hold :
    ((([1] : List Nat), MEvent.buttonUp 0) ∈
      (frameRun
        (MTree.node ⟨false, false, false, false, false, false, 0, 0, 1280, 720⟩
          (MList.cons (MTree.node ⟨true, false, false, false, false, false, 0, 0, 10, 10⟩ MList.nil)
            (MList.cons (MTree.node ⟨true, false, false, false, false, false, 10, 0, 10, 10⟩ MList.nil)
              MList.nil)))
        none (false, false, false)
        [⟨5, 5, (true, false, false)⟩, ⟨15, 5, (true, false, false)⟩,
         ⟨15, 5, (false, false, false)⟩]).2.2.2.getD 2 [] ∧
      (([0] : List Nat), MEvent.click 0) ∉
      (frameRun
        (MTree.node ⟨false, false, false, false, false, false, 0, 0, 1280, 720⟩
          (MList.cons (MTree.node ⟨true, false, false, false, false, false, 0, 0, 10, 10⟩ MList.nil)
            (MList.cons (MTree.node ⟨true, false, false, false, false, false, 10, 0, 10, 10⟩ MList.nil)
              MList.nil)))
        none (false, false, false)
        [⟨5, 5, (true, false, false)⟩, ⟨15, 5, (true, false, false)⟩,
         ⟨15, 5, (false, false, false)⟩]).2.2.2.flatten ∧
      (([1] : List Nat), MEvent.click 0) ∉
      (frameRun
        (MTree.node ⟨false, false, false, false, false, false, 0, 0, 1280, 720⟩
          (MList.cons (MTree.node ⟨true, false, false, false, false, false, 0, 0, 10, 10⟩ MList.nil)
            (MList.cons (MTree.node ⟨true, false, false, false, false, false, 10, 0, 10, 10⟩ MList.nil)
              MList.nil)))
        none (false, false, false)
        [⟨5, 5, (true, false, false)⟩, ⟨15, 5, (true, false, false)⟩,
         ⟨15, 5, (false, false, false)⟩]).2.2.2.flatten) ∧
    (∀ (b : Nat) (ps : List (Bool × Bool)) (oldState : Bool) (k : Nat),
      MEvent.click b ∈ (latchRun b oldState false ps).getD k [] →
      ∃ j, j < k ∧ pressAt oldState ps j ∧
        (∀ i, j ≤ i → i ≤ k → passOver ps i = true) ∧
        (∀ i, j ≤ i → i < k → passNew ps i = true) ∧
        passNew ps k = false) := by
  constructor
  · refine ⟨by decide, by decide, by decide⟩
  · intro b ps oldState k h
    have hs := latchRun_click_sound b ps oldState false k h
    obtain ⟨h1, h2, h3, h4⟩ := hs
    rcases h4 with ⟨hcl, _⟩ | ⟨j, hjk, hpress, hrange⟩
    · exact absurd hcl (by simp)
    · refine ⟨j, hjk, hpress, fun i hji hik => ?_, fun i hji hik => (hrange i hji hik).2, h2⟩
      rcases Nat.lt_or_ge i k with hlt | hge
      · exact (hrange i hji hlt).1
      · have : i = k := by omega
        rw [this]; exact h3

/-- Witness for c7_click_press_and_hold: a two-pass run (press over, release
over) in which pass 1 emits a Click; the theorem yields the press at pass 0
and the hold-over interval. -/
theorem c7_click_press_and_hold_witness :
    (MEvent.click 0 ∈ (latchRun 0 false false [(true, true), (false, true)]).getD 1 []) ∧
    (∃ j, j < 1 ∧ pressAt false [(true, true), (false, true)] j ∧
      (∀ i, j ≤ i → i ≤ 1 → passOver [(true, true), (false, true)] i = true) ∧
      (∀ i, j ≤ i → i < 1 → passNew [(true, true), (false, true)] i = true) ∧
      passNew [(true, true), (false, true)] 1 = false) :=
  ⟨by decide,
    c7_click_press_and_hold.2 0 [(true, true), (false, true)] false 1 (by decide)⟩

/-! ## Claim C1: editing-state well-formedness is preserved -/

theorem removeCursorRow_of_count_zero (r : Row) (h : r.count Cell.cursor = 0) :
    removeCursorRow r = r := by
  unfold removeCursorRow
  apply List.eraseP_of_forall_not
  intro a ha
  have : a ≠ Cell.cursor := by
    intro he
    subst he
    exact absurd h (by simp [List.count_eq_zero, ha])
  simp [this]

theorem removeCursorRow_split (pre post : Row) (hpre : pre.count Cell.cursor = 0) :
    removeCursorRow (pre ++ Cell.cursor :: post) = pre ++ post := by
  unfold removeCursorRow
  rw [List.eraseP_append_right]
  · rw [List.eraseP_cons_of_pos (by simp)]
  · intro b hb
    have : b ≠ Cell.cursor := by
      intro he
      subst he
      exact absurd hpre (by simp [List.count_eq_zero, hb])
    simp [this]

theorem cursorCount_zero_forall (l : List Row) (h : cursorCount l = 0) :
    ∀ r ∈ l, r.count Cell.cursor = 0 := by
  induction l with
  | nil => intro r hr; simp at hr
  | cons a rest ih =>
    simp only [cursorCount] at h
    intro r hr
    rcases List.mem_cons.mp hr with he | hm
    · subst he; omega
    · exact ih (by omega) r hm

theorem removeCursor_of_count_zero (l : List Row) (h : cursorCount l = 0) :
    removeCursor l = l := by
  unfold removeCursor
  induction l with
  | nil => rfl
  | cons a rest ih =>
    simp only [cursorCount] at h
    simp only [List.map_cons]
    rw [removeCursorRow_of_count_zero a (by omega), ih (by omega)]

theorem removeCursor_split (A : List Row) (r : Row) (B : List Row)
    (hA : cursorCount A = 0) (hB : cursorCount B = 0) :
    removeCursor (A ++ r :: B) = A ++ removeCursorRow r :: B := by
  unfold removeCursor
  rw [List.map_append, List.map_cons]
  have h1 : A.map removeCursorRow = A := by
    have := removeCursor_of_count_zero A hA
    simpa [removeCursor] using this
  have h2 : B.map removeCursorRow = B := by
    have := removeCursor_of_count_zero B hB
    simpa [removeCursor] using this
  rw [h1, h2]

theorem getq_append_len {α : Type} (u : List α) (a : α) (v : List α) :
    (u ++ a :: v).get? u.length = some a := by
  rw [List.get?_eq_getElem?, List.getElem?_append_right (Nat.le_refl _)]
  simp

theorem insertChildAt_at_append {α : Type} (u v : List α) (c : α) :
    insertChildAt (u ++ v) c u.length = u ++ c :: v := by
  unfold insertChildAt
  cases v with
  | nil => simp
  | cons w ws =>
    rw [if_neg (by simp)]
    rw [List.take_left, List.drop_left]

theorem getD_set_self (rows : List Row) (v : Row) (i : Nat) (h : i < rows.length) :
    (rows.set i v).getD i [] = v := by
  induction rows generalizing i with
  | nil => simp at h
  | cons a rest ih =>
    cases i with
    | zero => rfl
    | succ n =>
      simp only [List.set]
      simpa using ih n (by simpa using h)

theorem cursorCount_getD_zero (rows : List Row) (i : Nat) (h : cursorCount rows = 0) :
    (rows.getD i []).count Cell.cursor = 0 := by
  induction rows generalizing i with
  | nil => simp
  | cons a rest ih =>
    simp only [cursorCount] at h
    cases i with
    | zero => simpa using (by omega : a.count Cell.cursor = 0)
    | succ n => simpa using ih n (by omega)

theorem cursorCount_set_zero (rows : List Row) (v : Row) (i : Nat)
    (h : cursorCount rows = 0) (hi : i < rows.length) :
    cursorCount (rows.set i v) = v.count Cell.cursor := by
  induction rows generalizing i with
  | nil => simp at hi
  | cons a rest ih =>
    simp only [cursorCount] at h
    cases i with
    | zero => simp [cursorCount]; omega
    | succ n =>
      simp only [List.set, cursorCount]
      rw [ih n (by omega) (by simpa using hi)]
      omega

theorem concat_decomp {α : Type} (u : List α) (h : u ≠ []) :
    ∃ u' a, u = u' ++ [a] ∧ u'.length + 1 = u.length := by
  rcases List.eq_nil_or_concat u with he | ⟨L, b, he⟩
  · exact absurd he h
  · exact ⟨L, b, by simpa [List.concat_eq_append] using he,
      by simp [he, List.concat_eq_append]⟩

theorem row_decomp (r : Row) (x : Nat) (hx : r.get? x = some Cell.cursor)
    (h1 : r.count Cell.cursor = 1) :
    ∃ pre post, r = pre ++ Cell.cursor :: post ∧ pre.length = x ∧
      pre.count Cell.cursor = 0 ∧ post.count Cell.cursor = 0 := by
  have hxlt : x < r.length := by
    by_contra hge
    rw [List.get?_eq_getElem?, List.getElem?_eq_none (by omega)] at hx
    exact Option.noConfusion hx
  have hget : r[x] = Cell.cursor := by
    rw [List.get?_eq_getElem?, List.getElem?_eq_getElem hxlt] at hx
    simpa using hx
  refine ⟨r.take x, r.drop (x + 1), ?_, by simp; omega, ?_, ?_⟩
  · conv_lhs => rw [← List.take_append_drop x r]
    rw [List.drop_eq_getElem_cons hxlt, hget]
  · have hsplit : r = r.take x ++ Cell.cursor :: r.drop (x + 1) := by
      conv_lhs => rw [← List.take_append_drop x r]
      rw [List.drop_eq_getElem_cons hxlt, hget]
    have := congrArg (fun l => l.count Cell.cursor) hsplit
    simp [List.count_append, List.count_cons] at this
    omega
  · have hsplit : r = r.take x ++ Cell.cursor :: r.drop (x + 1) := by
      conv_lhs => rw [← List.take_append_drop x r]
      rw [List.drop_eq_getElem_cons hxlt, hget]
    have := congrArg (fun l => l.count Cell.cursor) hsplit
    simp [List.count_append, List.count_cons] at this
    omega

theorem doc_decomp (s : EditorState) (h : EditorWF s) :
    ∃ A pre post B,
      s.rows = A ++ (pre ++ Cell.cursor :: post) :: B ∧
      A.length = s.y ∧ pre.length = s.x ∧
      cursorCount A = 0 ∧ cursorCount B = 0 ∧
      pre.count Cell.cursor = 0 ∧ post.count Cell.cursor = 0 := by
  obtain ⟨hy, hx, hcc⟩ := h
  have hsplit : s.rows = s.rows.take s.y ++ (s.rows.getD s.y []) :: s.rows.drop (s.y + 1) := by
    have hg : s.rows.getD s.y [] = s.rows[s.y] := by
      rw [List.getD_eq_getElem?_getD, List.getElem?_eq_getElem hy]
      rfl
    conv_lhs => rw [← List.take_append_drop s.y s.rows]
    rw [List.drop_eq_getElem_cons hy, hg]
  have hlenA : (s.rows.take s.y).length = s.y := by simp; omega
  have hcount : cursorCount (s.rows.take s.y) + (s.rows.getD s.y []).count Cell.cursor
      + cursorCount (s.rows.drop (s.y + 1)) = 1 := by
    have := congrArg cursorCount hsplit
    rw [cursorCount_append] at this
    simp only [cursorCount] at this
    omega
  have hmem : Cell.cursor ∈ s.rows.getD s.y [] := by
    have hxlt : s.x < (s.rows.getD s.y []).length := by
      by_contra hge
      rw [List.get?_eq_getElem?, List.getElem?_eq_none (by omega)] at hx
      exact Option.noConfusion hx
    have : (s.rows.getD s.y [])[s.x] = Cell.cursor := by
      rw [List.get?_eq_getElem?, List.getElem?_eq_getElem hxlt] at hx
      injection hx
    exact this ▸ List.getElem_mem hxlt
  have hrc : (s.rows.getD s.y []).count Cell.cursor = 1 := by
    have h1 : 1 ≤ (s.rows.getD s.y []).count Cell.cursor := List.one_le_count_iff.mpr hmem
    omega
  obtain ⟨pre, post, hr, hplen, hpc, hqc⟩ := row_decomp _ s.x hx hrc
  refine ⟨s.rows.take s.y, pre, post, s.rows.drop (s.y + 1), ?_, hlenA, hplen, by omega, by omega,
    hpc, hqc⟩
  rw [← hr]
  exact hsplit

theorem reinsertWF (rows : List Row) (y1 x1 : Nat)
    (hcc : cursorCount rows = 0) (hy : y1 < rows.length)
    (hx : x1 ≤ (rows.getD y1 []).length) :
    EditorWF ⟨rows.set y1 (insertChildAt (rows.getD y1 []) Cell.cursor x1), x1, y1⟩ := by
  set r := rows.getD y1 [] with hrdef
  have hlen : (r.take x1).length = x1 := by simp; omega
  have hins := insertChildAt_at_append (r.take x1) (r.drop x1) Cell.cursor
  rw [hlen, List.take_append_drop x1 r] at hins
  have hrc : r.count Cell.cursor = 0 := cursorCount_getD_zero rows y1 hcc
  have hrc2 : (r.take x1).count Cell.cursor + (r.drop x1).count Cell.cursor = 0 := by
    have := congrArg (fun l => l.count Cell.cursor) (List.take_append_drop x1 r)
    simp only [List.count_append] at this
    omega
  refine ⟨by simpa using hy, ?_, ?_⟩
  · simp only []
    rw [getD_set_self _ _ _ hy]
    have hq := getq_append_len (r.take x1) Cell.cursor (r.drop x1)
    rw [hlen] at hq
    rw [hins]
    exact hq
  · simp only []
    rw [cursorCount_set_zero rows _ y1 hcc hy, hins]
    simp [List.count_append, List.count_cons]
    omega

theorem wf_build (A : List Row) (u v : Row) (B : List Row)
    (hccA : cursorCount A = 0) (hccB : cursorCount B = 0)
    (hu : u.count Cell.cursor = 0) (hv : v.count Cell.cursor = 0) :
    EditorWF ⟨A ++ (u ++ Cell.cursor :: v) :: B, u.length, A.length⟩ := by
  refine ⟨by simp, ?_, ?_⟩
  · simp only []
    rw [getD_append_len]
    exact getq_append_len u Cell.cursor v
  · simp only []
    rw [cursorCount_append]
    simp only [cursorCount, List.count_append, List.count_cons]
    simp
    omega

theorem wf_bsp_mid (A : List Row) (pre' : Row) (a : Cell) (post : Row) (B : List Row)
    (hccA : cursorCount A = 0) (hccB : cursorCount B = 0)
    (hcpre : (pre' ++ [a]).count Cell.cursor = 0) (hcpost : post.count Cell.cursor = 0) :
    EditorWF (writeChar ⟨A ++ ((pre' ++ [a]) ++ Cell.cursor :: post) :: B,
      (pre' ++ [a]).length, A.length⟩ 8) := by
  unfold writeChar
  norm_num
  rw [getElem_append_len, eraseIdx_append_len]
  exact wf_build A pre' post B hccA hccB
    (by simp [List.count_append] at hcpre; omega) hcpost

theorem wf_bsp_merge (A' : List Row) (prev : Row) (post : Row) (B : List Row)
    (hccA : cursorCount (A' ++ [prev]) = 0) (hccB : cursorCount B = 0)
    (hcpost : post.count Cell.cursor = 0) :
    EditorWF (writeChar ⟨(A' ++ [prev]) ++ (Cell.cursor :: post) :: B,
      0, (A' ++ [prev]).length⟩ 8) := by
  have hcc : cursorCount A' = 0 ∧ prev.count Cell.cursor = 0 := by
    rw [cursorCount_append] at hccA
    simp only [cursorCount] at hccA
    omega
  unfold writeChar
  norm_num
  have h0 : removeCursor (A' ++ prev :: (Cell.cursor :: post) :: B) = A' ++ prev :: post :: B := by
    have hs := removeCursor_split (A' ++ [prev]) (Cell.cursor :: post) B hccA hccB
    have h2 : removeCursorRow (Cell.cursor :: post) = post := by
      have := removeCursorRow_split [] post (by simp)
      simpa using this
    rw [h2] at hs
    simpa using hs
  rw [h0]
  simp only [← List.getD_eq_getElem?_getD]
  rw [getD_append_len_succ, getD_append_len, mergeRows_spec]
  simp only []
  rw [set_append_len, eraseIdx_append_len_succ, getD_append_len]
  have hx1 : (prev ++ post).length - (0 + post.length) = prev.length := by simp
  rw [hx1, insertChildAt_at_append, set_append_len]
  exact wf_build A' prev post B hcc.1 hccB hcc.2 hcpost

theorem getElem_append_len_succ {α : Type} (a : List α) (r v : α) (b : List α)
    (h : a.length + 1 < (a ++ r :: v :: b).length) :
    (a ++ r :: v :: b)[a.length + 1] = v := by
  induction a with
  | nil => rfl
  | cons x xs ih => simpa using ih (by simp only [List.length_cons, List.length_append] at h ⊢; omega)

theorem wf_del_mid (A : List Row) (pre : Row) (q : Cell) (post' : Row) (B : List Row)
    (hccA : cursorCount A = 0) (hccB : cursorCount B = 0)
    (hcpre : pre.count Cell.cursor = 0)
    (hcpost : (q :: post').count Cell.cursor = 0) :
    EditorWF (writeChar ⟨A ++ (pre ++ Cell.cursor :: q :: post') :: B,
      pre.length, A.length⟩ 127) := by
  unfold writeChar
  norm_num
  rw [getElem_append_len]
  rw [if_pos (by simp)]
  rw [eraseIdx_append_len_succ pre Cell.cursor q post']
  exact wf_build A pre post' B hccA hccB hcpre
    (by simp [List.count_cons] at hcpost; omega)

theorem wf_del_merge (A : List Row) (pre : Row) (next : Row) (B' : List Row)
    (hccA : cursorCount A = 0) (hccB : cursorCount (next :: B') = 0)
    (hcpre : pre.count Cell.cursor = 0) :
    EditorWF (writeChar ⟨A ++ (pre ++ [Cell.cursor]) :: next :: B',
      pre.length, A.length⟩ 127) := by
  have hcc : next.count Cell.cursor = 0 ∧ cursorCount B' = 0 := by
    simp only [cursorCount] at hccB
    omega
  unfold writeChar
  norm_num
  rw [getElem_append_len]
  rw [if_neg (by simp)]
  rw [getElem_append_len_succ, transferAll_spec, eraseIdx_append_len_succ]
  have hshape : (pre ++ [Cell.cursor]) ++ next = pre ++ Cell.cursor :: next := by simp
  rw [hshape]
  exact wf_build A pre next B' hccA hcc.2 hcpre hcc.1

theorem wf_newline (A : List Row) (pre post : Row) (B : List Row)
    (hccA : cursorCount A = 0) (hccB : cursorCount B = 0)
    (hcpre : pre.count Cell.cursor = 0) (hcpost : post.count Cell.cursor = 0) :
    EditorWF (writeChar ⟨A ++ (pre ++ Cell.cursor :: post) :: B,
      pre.length, A.length⟩ 10) := by
  unfold writeChar
  norm_num
  rw [insertChildAt_append_len]
  simp only [← List.getD_eq_getElem?_getD]
  rw [getD_append_len_succ, getD_append_len, moveTail_spec]
  simp only [List.take_left, List.drop_left, List.nil_append]
  rw [set_append_len, set_append_len_succ]
  have h0 : removeCursor (A ++ pre :: (Cell.cursor :: post) :: B) = A ++ pre :: post :: B := by
    have hs := removeCursor_split (A ++ [pre]) (Cell.cursor :: post) B
      (by rw [cursorCount_append]; simp [cursorCount]; omega) hccB
    have h2 : removeCursorRow (Cell.cursor :: post) = post := by
      simpa using removeCursorRow_split [] post (by simp)
    rw [h2] at hs
    simpa using hs
  rw [h0, getD_append_len_succ, insertChildAt_zero, set_append_len_succ]
  have := wf_build (A ++ [pre]) [] post B
    (by rw [cursorCount_append]; simp [cursorCount]; omega) hccB (by simp) hcpost
  simpa using this

theorem wf_insert_char (A : List Row) (pre post : Row) (B : List Row) (c : Nat)
    (hc8 : ¬ c = 8) (hc127 : ¬ c = 127) (hc10 : ¬ c = 10)
    (hccA : cursorCount A = 0) (hccB : cursorCount B = 0)
    (hcpre : pre.count Cell.cursor = 0) (hcpost : post.count Cell.cursor = 0) :
    EditorWF (writeChar ⟨A ++ (pre ++ Cell.cursor :: post) :: B, pre.length, A.length⟩ c) := by
  unfold writeChar
  simp only [if_neg hc8, if_neg hc127, if_neg hc10]
  rw [getD_append_len, insertChildAt_at_append, set_append_len]
  have := wf_build A (pre ++ [Cell.char c]) post B hccA hccB
    (by simp [List.count_append, hcpre]) hcpost
  simpa [List.append_assoc] using this

theorem writeChar_WF (s : EditorState) (h : EditorWF s) (c : Nat) :
    EditorWF (writeChar s c) := by
  obtain ⟨A, pre, post, B, hrows, hA, hpre, hccA, hccB, hcpre, hcpost⟩ := doc_decomp s h
  obtain ⟨rows, x, y⟩ := s
  simp only [] at hrows hA hpre
  subst hrows hA hpre
  by_cases hc8 : c = 8
  · subst hc8
    by_cases hx : pre = []
    · subst hx
      by_cases hy : A = []
      · subst hy
        unfold writeChar
        norm_num
        simpa using wf_build [] [] post B (by simp [cursorCount]) hccB (by simp) hcpost
      · obtain ⟨A', prev, rfl, hlen⟩ := concat_decomp A hy
        simpa using wf_bsp_merge A' prev post B hccA hccB hcpost
    · obtain ⟨pre', a, rfl, hlen⟩ := concat_decomp pre hx
      exact wf_bsp_mid A pre' a post B hccA hccB hcpre hcpost
  · by_cases hc127 : c = 127
    · subst hc127
      cases post with
      | cons q post' => exact wf_del_mid A pre q post' B hccA hccB hcpre hcpost
      | nil =>
        cases B with
        | cons next B' =>
          simpa using wf_del_merge A pre next B' hccA hccB hcpre
        | nil =>
          unfold writeChar
          norm_num
          simpa using wf_build A pre [] [] hccA (by simp [cursorCount]) hcpre (by simp)
    · by_cases hc10 : c = 10
      · subst hc10
        exact wf_newline A pre post B hccA hccB hcpre hcpost
      · exact wf_insert_char A pre post B c hc8 hc127 hc10 hccA hccB hcpre hcpost

theorem arrowKey_WF (s : EditorState) (h : EditorWF s) (k : Arrow) :
    EditorWF (arrowKey s k) := by
  obtain ⟨A, pre, post, B, hrows, hA, hpre, hccA, hccB, hcpre, hcpost⟩ := doc_decomp s h
  obtain ⟨rows, x, y⟩ := s
  simp only [] at hrows hA hpre
  subst hrows hA hpre
  unfold arrowKey
  have h0 : removeCursor (A ++ (pre ++ Cell.cursor :: post) :: B) = A ++ (pre ++ post) :: B := by
    rw [removeCursor_split A _ B hccA hccB, removeCursorRow_split pre post hcpre]
  simp only []
  rw [h0]
  have hcc : cursorCount (A ++ (pre ++ post) :: B) = 0 := by
    rw [cursorCount_append]
    simp only [cursorCount, List.count_append]
    omega
  cases k
  case right =>
    norm_num
    simp only [← List.getD_eq_getElem?_getD]
    rw [getElem_append_len]
    cases post with
    | cons q post' =>
      rw [if_pos (by simp)]
      apply reinsertWF _ _ _ hcc
      · simp only [List.length_append, List.length_cons, List.length_nil]
        omega
      · simp only [List.getD_cons_zero, getD_append_len, getElem_append_len, List.length_append,
          List.length_cons, List.length_nil, List.append_nil, List.nil_append]
        omega
    | nil =>
      rw [if_neg (by simp)]
      cases B with
      | cons next B' =>
        rw [if_pos (by simp)]
        apply reinsertWF _ _ _ hcc
        · simp only [List.length_append, List.length_cons, List.length_nil]
          omega
        · simp only [List.length_nil, List.getD_cons_zero, getD_append_len, getElem_append_len,
            getD_append_len_succ, List.length_append, List.length_cons, List.append_nil,
            List.nil_append]
          omega
      | nil =>
        rw [if_neg (by simp)]
        apply reinsertWF _ _ _ hcc
        · simp only [List.length_append, List.length_cons, List.length_nil]
          omega
        · simp only [getD_append_len, getElem_append_len, List.length_append, List.length_cons,
            List.length_nil, List.append_nil, List.nil_append]
          omega
  case left =>
    norm_num
    simp only [← List.getD_eq_getElem?_getD]
    by_cases hp : pre = []
    · subst hp
      rw [if_neg (by simp)]
      by_cases hA0 : A = []
      · subst hA0
        rw [if_neg (by simp)]
        apply reinsertWF _ _ _ hcc
        · simp only [List.length_append, List.length_cons, List.length_nil]
          omega
        · simp only [List.length_nil, List.getD_cons_zero, getD_append_len, getElem_append_len,
            getD_append_len_succ, List.length_append, List.length_cons, List.append_nil,
            List.nil_append]
          omega
      · rw [if_pos (by simpa using List.length_pos.mpr hA0)]
        apply reinsertWF _ _ _ hcc
        · simp only [List.length_append, List.length_cons, List.length_nil]
          have := List.length_pos.mpr hA0
          omega
        · simp only [List.length_nil, List.getD_cons_zero, getD_append_len, getElem_append_len,
            getD_append_len_succ, List.length_append, List.length_cons, List.append_nil,
            List.nil_append]
          omega
    · rw [if_pos (by simpa using List.length_pos.mpr hp)]
      apply reinsertWF _ _ _ hcc
      · simp only [List.length_append, List.length_cons, List.length_nil]
        omega
      · simp only [List.getD_cons_zero, getD_append_len, getElem_append_len, List.length_append,
          List.length_cons, List.length_nil, List.append_nil, List.nil_append]
        omega
  case up =>
    norm_num
    simp only [← List.getD_eq_getElem?_getD]
    by_cases hA0 : A = []
    · subst hA0
      rw [if_neg (by simp)]
      apply reinsertWF _ _ _ hcc
      · simp only [List.length_append, List.length_cons, List.length_nil]
        omega
      · simp only [List.getD_cons_zero, getD_append_len, getElem_append_len, List.length_append,
          List.length_cons, List.length_nil, List.append_nil, List.nil_append]
        omega
    · rw [if_pos (by simpa using List.length_pos.mpr hA0)]
      apply reinsertWF _ _ _ hcc
      · simp only [List.length_append, List.length_cons, List.length_nil]
        have := List.length_pos.mpr hA0
        omega
      · simp only [List.length_nil, List.getD_cons_zero, getD_append_len, getElem_append_len,
          getD_append_len_succ, List.length_append, List.length_cons, List.append_nil,
          List.nil_append]
        omega
  case down =>
    norm_num
    simp only [← List.getD_eq_getElem?_getD]
    cases B with
    | cons next B' =>
      rw [if_pos (by simp)]
      apply reinsertWF _ _ _ hcc
      · simp only [List.length_append, List.length_cons, List.length_nil]
        omega
      · simp only [List.length_nil, List.getD_cons_zero, getD_append_len, getElem_append_len,
          getD_append_len_succ, List.length_append, List.length_cons, List.append_nil,
          List.nil_append]
        omega
    | nil =>
      rw [if_neg (by simp)]
      apply reinsertWF _ _ _ hcc
      · simp only [List.length_append, List.length_cons, List.length_nil]
        omega
      · simp only [List.getD_cons_zero, getD_append_len, getElem_append_len, List.length_append,
          List.length_cons, List.length_nil, List.append_nil, List.nil_append]
        omega

/-- Claim C1: for every well-formed editing state (exactly one cursor element,
at child index x of row y of the document), after any single writeChar
operation (printable insert, backspace, delete, newline) or any arrow-key
cursor move, exactly one cursor element exists, it is a child of the row at
index cursor.Y at child index cursor.X, and (by construction of the model)
the character sequence of every row is the row's child cells excluding the
cursor, in order. -/
theorem c1_editor_invariant :
    ∀ s : EditorState, EditorWF s →
      (∀ c : Nat, EditorWF (writeChar s c)) ∧ (∀ k : Arrow, EditorWF (arrowKey s k)) :=
  fun s h => ⟨fun c => writeChar_WF s h c, fun k => arrowKey_WF s h k⟩

theorem c1_editor_invariant_witness :
    EditorWF initialEditor ∧ EditorWF (writeChar initialEditor 97) ∧
      EditorWF (arrowKey initialEditor Arrow.down) :=
  ⟨by decide, (c1_editor_invariant initialEditor (by decide)).1 97,
    (c1_editor_invariant initialEditor (by decide)).2 Arrow.down⟩
